import Mathlib

/-!
Shallow embedding of the verb-execution engine of `plydata/dataframe.py`.

A pandas `DataFrame` is modelled as an ordered list of column names together
with row-major storage: `rows` is the list of rows, each row a list of cell
values in column order.  The pandas label index is modelled as the row
position (the verbs under study construct their frames with the default
`RangeIndex`, and `pd.concat(..., ignore_index=True)` resets it to exactly
that).  Cell values are drawn from one linearly ordered type `α`: group keys
are opaque, hashable, orderable values, which a `LinearOrder` captures; the
order is used only where pandas itself orders values (sorted groupby
iteration, `sort_values`).

External collaborators are embedded by their observable behaviour:
* the textual-expression evaluator `verb.env.eval(expr, inner_namespace=df)`
  is modelled as the function `DataFrame α → List α` the text denotes on the
  row namespace (this also covers the transient aggregate namespace of
  summarize expressions);
* a compiled regex `pattern` with its `pattern.match` method is modelled as
  the Boolean predicate `String → Bool` it computes;
* pandas primitives (`groupby` with sorted iteration, the stable multi-key
  `sort_values`, boolean column slicing, `concat` with `ignore_index`) are
  modelled directly on the list representation.

Python exceptions are modelled with `Except PyErr`.
-/

namespace Plydata

/-- Python exception classes raised or caught in `dataframe.py`. -/
inductive PyErr : Type where
  | keyError
  | indexError
  | typeError
  | valueError
deriving Repr, DecidableEq

/-- Position of the first occurrence of `x` in `l` (`l.length` when absent).
This is `List.indexOf` with the `BEq` instance that comes from decidable
equality, so that propositional-equality lemmas apply to it directly. -/
def pindexOf {β : Type} [DecidableEq β] (x : β) (l : List β) : Nat :=
  @List.indexOf β instBEqOfDecidableEq x l

/-- A pandas `DataFrame`: ordered column names plus row-major cell storage.
Row labels are modelled as row positions. -/
structure DataFrame (α : Type) : Type where
  names : List String
  rows : List (List α)
deriving Repr, DecidableEq

variable {α : Type} [Inhabited α] [DecidableEq α]

/-- Number of rows, `len(df)` in pandas. -/
def DataFrame.nrows (df : DataFrame α) : Nat :=
  df.rows.length

/-- Well-formedness: every row has one cell per column. -/
def DataFrame.Wf (df : DataFrame α) : Prop :=
  ∀ r ∈ df.rows, r.length = df.names.length

instance (df : DataFrame α) : Decidable df.Wf :=
  inferInstanceAs (Decidable (∀ r ∈ df.rows, r.length = df.names.length))

/-- Column access `df[c]`: the cell of each row at the position of `c` in the
column list.  The verbs below only read columns that exist. -/
def DataFrame.getCol (df : DataFrame α) (c : String) : List α :=
  df.rows.map (fun r => r.getD (pindexOf c df.names) default)

/-- Column assignment `df[c] = xs`: overwrite in place when `c` is an existing
column, append a new last column otherwise (pandas `__setitem__`). -/
def DataFrame.setCol (df : DataFrame α) (c : String) (xs : List α) : DataFrame α :=
  if c ∈ df.names then
    ⟨df.names, (df.rows.zip xs).map (fun p => p.1.set (pindexOf c df.names) p.2)⟩
  else
    ⟨df.names ++ [c], (df.rows.zip xs).map (fun p => p.1 ++ [p.2])⟩

/-- A verb's input dataset: either a plain `pd.DataFrame` or a
`GroupedDataFrame`, i.e. a dataframe tagged with its `plydata_groups` key
columns. -/
inductive PFrame (α : Type) : Type where
  | plain (df : DataFrame α)
  | grouped (df : DataFrame α) (groups : List String)
deriving Repr, DecidableEq

/-- Underlying dataframe of a possibly grouped frame. -/
def PFrame.df : PFrame α → DataFrame α
  | .plain d => d
  | .grouped d _ => d

/-- Helper `_get_groups(verb)`: the `plydata_groups` tag, `[]` when the input
is not a `GroupedDataFrame` (the `AttributeError` branch). -/
def _get_groups : PFrame α → List String
  | .plain _ => []
  | .grouped _ gs => gs

/-- Rebuild a frame with the same group tag around a transformed dataframe. -/
def PFrame.mapDf (f : DataFrame α → DataFrame α) : PFrame α → PFrame α
  | .plain d => .plain (f d)
  | .grouped d gs => .grouped (f d) gs

/-- One entry of `verb.expressions` as received by `_evaluate_expressions`:
a Python `str` (evaluated by `verb.env.eval` against the row namespace,
modelled by the column function the text denotes), a non-string value with
`__len__`, or a non-string value without `__len__` (an `int`, `float`,
numpy scalar, ...). -/
inductive Expr (α : Type) : Type where
  | text (f : DataFrame α → List α)
  | seq (xs : List α)
  | scalar (v : α)

/-- Helper `_evaluate_expressions(verb)`: evaluate every
`(new_column, expression)` pair against `verb.data` — never against the
columns assigned by sibling pairs of the same call — and return the evaluated
columns in order.  A string expression is evaluated by the environment; a
sequence is accepted verbatim only when its length equals `len(verb.data)`,
raising `ValueError` otherwise; anything else raises `TypeError`.  The loop
raises at the first offending pair. -/
def _evaluate_expressions :
    List (String × Expr α) → DataFrame α → Except PyErr (List (String × List α))
  | [], _ => .ok []
  | (col, .text f) :: rest, data =>
      match _evaluate_expressions rest data with
      | .ok tl => .ok ((col, f data) :: tl)
      | .error e => .error e
  | (col, .seq xs) :: rest, data =>
      if data.nrows = xs.length then
        match _evaluate_expressions rest data with
        | .ok tl => .ok ((col, xs) :: tl)
        | .error e => .error e
      else
        .error .valueError
  | (_, .scalar _) :: _, _ => .error .typeError

/-- Verb `mutate(verb)`.  With `modify_input_data` disabled the input is
copied first, so the caller's frame is untouched; with it enabled the input
itself receives the new columns.  The result is the pair
(returned dataset, state of the caller's dataset after the call); a purely
functional rendering of the in-place policy. -/
def mutate (modify_input_data : Bool) (pairs : List (String × Expr α)) (pf : PFrame α) :
    Except PyErr (PFrame α × PFrame α) :=
  match _evaluate_expressions pairs pf.df with
  | .error e => .error e
  | .ok new_data =>
      let result := pf.mapDf (fun d => new_data.foldl (fun acc p => acc.setCol p.1 p.2) d)
      if modify_input_data then .ok (result, result) else .ok (result, pf)

/-- Values of the group-key columns of one row, in group order
(`tuple(row[g] for g in groups)`). -/
def rowKey (names groups : List String) (r : List α) : List α :=
  groups.map (fun g => r.getD (pindexOf g names) default)

/-- Helper `_get_base_dataframe(df)`: a frame holding only the grouped-on
columns (`df.loc[:, df.plydata_groups]`), or an empty-column frame over the
same index for a plain input. -/
def _get_base_dataframe : PFrame α → PFrame α
  | .plain d => .plain ⟨[], d.rows.map (fun _ => [])⟩
  | .grouped d gs => .grouped ⟨gs, d.rows.map (fun r => rowKey d.names gs r)⟩ gs

/-- Verb `transmute(verb)`: evaluate the expressions against `verb.data`
(exactly as mutate does) and assign them onto the base dataframe. -/
def transmute (pairs : List (String × Expr α)) (pf : PFrame α) : Except PyErr (PFrame α) :=
  match _evaluate_expressions pairs pf.df with
  | .error e => .error e
  | .ok new_data =>
      .ok ((_get_base_dataframe pf).mapDf
        (fun d => new_data.foldl (fun acc p => acc.setCol p.1 p.2) d))

/-- Verb `rename(verb)`: relabel columns through the lookup.  With
`modify_input_data` enabled pandas renames in place and the handler returns
`verb.data` itself; otherwise the renamed copy is returned and the input is
untouched.  Result pair as in `mutate`. -/
def rename (modify_input_data : Bool) (lookup : List (String × String)) (pf : PFrame α) :
    PFrame α × PFrame α :=
  let renamed := pf.mapDf (fun d =>
    ⟨d.names.map (fun n => (((lookup.find? (fun p => p.1 = n)).map Prod.snd).getD n)), d.rows⟩)
  if modify_input_data then (renamed, renamed) else (renamed, pf)

/-- Python truthiness of an optional string keyword argument: `None` and the
empty string are falsy, so `if kw[...]` skips the predicate for both. -/
def strTruthy : Option String → Bool
  | none => false
  | some s => !s.isEmpty

/-- Keyword arguments of `select`.  A compiled regex (or pattern text) for
`matches` is modelled as the Boolean predicate its `match` method computes;
`none` stands for an absent (falsy) keyword. -/
structure SelectKw : Type where
  startswith : Option String
  endswith : Option String
  contains : Option String
  matches_ : Option (String → Bool)
  drop : Bool

/-- Inclusion vector of `select` at one column name `x`:
`np.logical_or.reduce((c1, c2, c3, c4, c5, c6))`.  Each `ci` falls back to
the all-false vector `c0` when its predicate is absent or falsy.  Column
names are modelled as strings, so the `isinstance(x, str)` guards of
`c2`..`c5` hold.  String tests run on the character sequence. -/
def select_cond (args : List String) (kw : SelectKw) (groups : List String) (x : String) :
    Bool :=
  let c1 := if args ≠ [] then decide (x ∈ args) else false
  let c2 := match kw.startswith with
    | some s => !s.isEmpty && s.toList.isPrefixOf x.toList
    | none => false
  let c3 := match kw.endswith with
    | some s => !s.isEmpty && s.toList.isSuffixOf x.toList
    | none => false
  let c4 := match kw.contains with
    | some s => !s.isEmpty && decide (s.toList <:+: x.toList)
    | none => false
  let c5 := match kw.matches_ with
    | some pat => pat x
    | none => false
  let c6 := if groups ≠ [] then decide (x ∈ groups) else false
  c1 || c2 || c3 || c4 || c5 || c6

/-- Verb `select(verb)`: OR the name/startswith/endswith/contains/matches
predicates together with membership in the active group keys into one
inclusion vector, invert it when `drop` is set, then slice columns with it
(`verb.data.loc[:, cond]`). -/
def select (args : List String) (kw : SelectKw) (pf : PFrame α) : DataFrame α :=
  let groups := _get_groups pf
  let keep : String → Bool := fun x =>
    if kw.drop then !(select_cond args kw groups x) else select_cond args kw groups x
  ⟨pf.df.names.filter keep,
   pf.df.rows.map (fun r => ((pf.df.names.zip r).filter (fun p => keep p.1)).map Prod.snd)⟩

/-- Names of the synthetic sort-key columns of `arrange`:
`name_gen = ('col_0', 'col_1', ..., 'col_99')`, a generator over
`range(100)`. -/
def name_gen : List String :=
  (List.range 100).map (fun i => "col_" ++ toString i)

section Ordered

variable [LinearOrder α]

/-- The synthetic key columns of `arrange`: `zip(name_gen, verb.expressions)`
pairs at most the first 100 expressions with generated names, and each
expression is evaluated against the input frame. -/
def key_cols (exprs : List (DataFrame α → List α)) (df : DataFrame α) :
    List (String × List α) :=
  (name_gen.zip exprs).map (fun p => (p.1, p.2 df))

/-- Per-row sort-key tuples of `arrange`: row `i` of the synthetic frame. -/
def arrange_keys (exprs : List (DataFrame α → List α)) (df : DataFrame α) :
    List (List α) :=
  (List.range df.nrows).map (fun i => (key_cols exprs df).map (fun c => c.2.getD i default))

/-- Rows tagged with their sort-key tuples, the input order preserved. -/
def arrange_tagged (exprs : List (DataFrame α → List α)) (df : DataFrame α) :
    List (List α × List α) :=
  (arrange_keys exprs df).zip df.rows

/-- Comparison used by the engine's multi-key sort: keys compare
lexicographically, which is exactly left-to-right column priority. -/
def keyLe (p q : List α × List α) : Prop :=
  p.1 ≤ q.1

instance : DecidableRel (keyLe (α := α)) :=
  fun p q => inferInstanceAs (Decidable (p.1 ≤ q.1))

instance : IsTotal (List α × List α) (keyLe (α := α)) :=
  ⟨fun p q => le_total p.1 q.1⟩

instance : IsTrans (List α × List α) (keyLe (α := α)) :=
  ⟨fun _ _ _ h h' => le_trans h h'⟩

/-- Verb `arrange(verb)`: build the synthetic key frame, and if it has any
columns sort the input rows by the key tuples with the engine's stable
ascending multi-key sort (`df.sort_values` then `verb.data.loc[sorted_index]`);
return the input unchanged otherwise. -/
def arrange (exprs : List (DataFrame α → List α)) (df : DataFrame α) : DataFrame α :=
  if (key_cols exprs df).isEmpty then df
  else ⟨df.names, (List.insertionSort keyLe (arrange_tagged exprs df)).map Prod.snd⟩

/-- Distinct group-key tuples in ascending lexicographic order: the iteration
order of `data.groupby(groups)` (pandas groups sort by default) and of
`sorted(indices_dict.items())`. -/
def sortedKeys (df : DataFrame α) (groups : List String) : List (List α) :=
  List.insertionSort (· ≤ ·) ((df.rows.map (rowKey df.names groups)).dedup)

/-- Rows of one groupby partition: the rows whose key tuple is `k`, in their
original order (pandas groupby preserves intra-group order). -/
def partitionRows (df : DataFrame α) (groups : List String) (k : List α) : DataFrame α :=
  ⟨df.names, df.rows.filter (fun r => decide (rowKey df.names groups r = k))⟩

/-- Labels computed by `group_indices` from `data.groupby(groups).indices`:
`sorted(indices_dict.items())` enumerates the distinct key tuples in
ascending order, and the loop `indices[idx] = i` writes rank `i` into the
positions of the rows of key number `i`, starting from an all`-1` array.
Every row's key occurs in the dict, so each position receives exactly the
rank of its row's key among the sorted distinct keys and no `-1` survives;
the definition states that net effect directly. -/
def group_labels (df : DataFrame α) (groups : List String) : List Int :=
  df.rows.map (fun r =>
    ((pindexOf (rowKey df.names groups r) (sortedKeys df groups) : Nat) : Int))

/-- Verb `group_indices(verb)`.  For a `GroupedDataFrame` with a non-empty
explicit `verb.groups`, a warning is emitted ("GroupedDataFrame ignored extra
groups") but — since only the empty-`groups` branch assigns
`groups = data.plydata_groups` — the labels are then computed from the
explicit list, not from the tag; with no explicit groups the tag's keys are
used.  For a plain input the requested key columns are first materialised via
`transmute` (a plain column name evaluates to that column).  The Boolean
records whether the warning fired. -/
def group_indices (explicit : List String) (pf : PFrame α) :
    Except PyErr (Bool × List Int) :=
  match pf with
  | .grouped d tag =>
      if explicit ≠ [] then .ok (true, group_labels d explicit)
      else .ok (false, group_labels d tag)
  | .plain d =>
      match transmute (explicit.map (fun g => (g, Expr.text (fun dd => dd.getCol g))))
          (.plain d) with
      | .error e => .error e
      | .ok td => .ok (false, group_labels td.df explicit)

/-- One entry of `verb.expressions` in `summarize`: a string (evaluated with
the aggregate registry and the transient per-partition row-count function in
scope — all captured by the denotation `f` of the text on the partition) or an
already-materialised value (`np.asarray(value)`, a scalar becoming a length-1
column). -/
inductive SumExpr (α : Type) : Type where
  | text (f : DataFrame α → List α)
  | lit (xs : List α)

/-- Assemble the frame built column-by-column inside
`_eval_summarize_expressions`: the first evaluated column fixes the index
`range(n)` (the `NameError` branch), later columns align to it. -/
def fromCols (cols : List (String × List α)) : DataFrame α :=
  let n := match cols with
    | [] => 0
    | c :: _ => c.2.length
  ⟨cols.map Prod.fst, (List.range n).map (fun i => cols.map (fun c => c.2.getD i default))⟩

/-- Column insertion `data.insert(i, c, v)` with a scalar value: the constant
`v` broadcast down the new column at position `i`. -/
def DataFrame.insertConstCol (df : DataFrame α) (i : Nat) (c : String) (v : α) :
    DataFrame α :=
  ⟨df.names.insertIdx i c, df.rows.map (fun r => r.insertIdx i v)⟩

/-- The loop `for i, col in enumerate(gdf.plydata_groups): data.insert(i, col, ...)`,
inserting the pre-computed `(column, constant)` pairs at successive leading
positions. -/
def insertColsFrom (i : Nat) (kvs : List (String × α)) (d : DataFrame α) : DataFrame α :=
  match kvs with
  | [] => d
  | (c, v) :: rest => insertColsFrom (i + 1) rest (d.insertConstCol i c v)

/-- Helper `_eval_summarize_expressions(expressions, columns, env, gdf)`: the
apply step of split-apply-combine.  Every expression is evaluated on the
partition, and when the partition is a `GroupedDataFrame` its constant
group-key values (`gdf[col].iloc[0]`) are inserted as the leading columns. -/
def _eval_summarize_expressions (exprs : List (String × SumExpr α)) (pf : PFrame α) :
    DataFrame α :=
  let gdf := pf.df
  let data := fromCols (exprs.map (fun p =>
    (p.1, match p.2 with
      | .text f => f gdf
      | .lit xs => xs)))
  match pf with
  | .plain _ => data
  | .grouped d gs =>
      insertColsFrom 0 (gs.map (fun c => (c, (d.getCol c).getD 0 default))) data

/-- Verb `summarize(verb)`.  Grouped input: split into partitions (sorted
groupby iteration, each partition still tagged), apply
`_eval_summarize_expressions` to each, and combine with
`pd.concat(dfs, axis=0, ignore_index=True)` — the partial results
concatenated in partition order and reindexed contiguously (row positions in
the list model).  Plain input: a single apply. -/
def summarize (exprs : List (String × SumExpr α)) (pf : PFrame α) : DataFrame α :=
  match pf with
  | .plain d => _eval_summarize_expressions exprs (.plain d)
  | .grouped d gs =>
      let parts := (sortedKeys d gs).map (fun k =>
        _eval_summarize_expressions exprs (.grouped (partitionRows d gs k) gs))
      ⟨(match parts with
        | [] => []
        | p :: _ => p.names), (parts.map DataFrame.rows).flatten⟩

end Ordered

/-- Positional indexing `arr.iloc[n]` on a series: negative indices count from
the end; an out-of-range index raises `IndexError`. -/
def iloc (arr : List α) (n : Int) : Except PyErr α :=
  let i : Int := if n < 0 then n + arr.length else n
  if 0 ≤ i ∧ i < arr.length then .ok (arr.getD i.toNat default) else .error .indexError

/-- Aggregate helper `_nth(arr, n)`.  Its docstring promises the nth value,
NaN if missing, but the body runs `arr.iloc[n]` inside
`try: ... except KeyError: raise np.nan`: an out-of-range `iloc` raises
`IndexError`, which the `KeyError` handler does not catch, so the error
propagates; and even a caught case would execute `raise np.nan`, which in
Python 3 raises a `TypeError` (non-exception raised) rather than returning
the NaN sentinel. -/
def _nth (arr : List α) (n : Int) : Except PyErr α :=
  match iloc arr n with
  | .ok v => .ok v
  | .error e => if e = .keyError then .error .typeError else .error e

/-- Registry entry `first`: `lambda x: _nth(x, 0)`. -/
def _first (arr : List α) : Except PyErr α :=
  _nth arr 0

/-- Registry entry `last`: `lambda x: _nth(x, -1)`. -/
def _last (arr : List α) : Except PyErr α :=
  _nth arr (-1)

/-- Registry entry `n_distinct` (alias `n_unique`): `len(np.unique(arr))`. -/
def _n_distinct (arr : List α) : Nat :=
  arr.dedup.length

/-- Fixture: a one-column, two-row frame. -/
def dfAB : DataFrame Int :=
  ⟨["a"], [[1], [2]]⟩

/-- Fixture: a two-column, two-row frame. -/
def dfXY : DataFrame Int :=
  ⟨["x", "y"], [[1, 10], [2, 20]]⟩

/-- Fixture: a frame whose column "x" matches no string predicate of `kwC1`. -/
def dfC1 : DataFrame Int :=
  ⟨["x", "alpha"], [[1, 2]]⟩

/-- Fixture: `select` keywords `startswith="a", drop=True`. -/
def kwC1 : SelectKw :=
  ⟨some "a", none, none, none, true⟩

/-- Fixture: one key column with values 1,1,2,2,3,3 (the spec's a,a,b,b,c,c). -/
def dfC4 : DataFrame Int :=
  ⟨["k"], [[1], [1], [2], [2], [3], [3]]⟩

/-- Fixture: columns x = 1,1,2 and y = 1,2,2; grouping by x and by y gives
different labels. -/
def dfC7 : DataFrame Int :=
  ⟨["x", "y"], [[1, 1], [1, 2], [2, 2]]⟩

/-- Fixture: a single arrange ordering expression. -/
def exC8 : List (DataFrame Int → List Int) :=
  [fun d => d.getCol "x"]

section ListLemmas

variable {β γ δ : Type}

theorem zip_map_snd_eq : ∀ (l₁ : List β) (l₂ : List γ), l₁.length = l₂.length →
    (l₁.zip l₂).map Prod.snd = l₂
  | [], [], _ => rfl
  | _ :: t₁, _ :: t₂, h => by
      simp only [List.zip_cons_cons, List.map_cons, List.cons.injEq, true_and]
      exact zip_map_snd_eq t₁ t₂ (by simpa using h)
  | [], _ :: _, h => by simp at h
  | _ :: _, [], h => by simp at h

theorem map_zip_fst (g : β → δ) : ∀ (l₁ : List β) (l₂ : List γ), l₁.length = l₂.length →
    (l₁.zip l₂).map (fun p => g p.1) = l₁.map g
  | [], [], _ => rfl
  | _ :: t₁, _ :: t₂, h => by
      simp only [List.zip_cons_cons, List.map_cons, List.cons.injEq, true_and]
      exact map_zip_fst g t₁ t₂ (by simpa using h)
  | [], _ :: _, h => by simp at h
  | _ :: _, [], h => by simp at h

theorem zip_take_length_right : ∀ (l₁ : List β) (l₂ : List γ),
    l₁.zip l₂ = l₁.zip (l₂.take l₁.length)
  | [], _ => rfl
  | _ :: _, [] => rfl
  | _ :: t₁, _ :: t₂ => by
      simp only [List.zip_cons_cons, List.length_cons, List.take_succ_cons,
        List.cons.injEq, true_and]
      exact zip_take_length_right t₁ t₂

theorem getD_set_self : ∀ (l : List γ) (i : Nat) (a d : γ), i < l.length →
    (l.set i a).getD i d = a
  | [], i, _, _, h => absurd h (Nat.not_lt_zero i)
  | _ :: _, 0, _, _, _ => rfl
  | _ :: t, i + 1, a, d, h => getD_set_self t i a d (Nat.lt_of_succ_lt_succ h)

theorem getD_set_ne : ∀ (l : List γ) (i j : Nat) (a d : γ), i ≠ j →
    (l.set i a).getD j d = l.getD j d
  | [], _, _, _, _, _ => rfl
  | _ :: _, 0, 0, _, _, h => absurd rfl h
  | _ :: _, 0, _ + 1, _, _, _ => rfl
  | _ :: _, _ + 1, 0, _, _, _ => rfl
  | _ :: t, i + 1, j + 1, a, d, h =>
      getD_set_ne t i j a d (fun e => h (congrArg Nat.succ e))

theorem getD_append_left : ∀ (l₁ l₂ : List γ) (n : Nat) (d : γ), n < l₁.length →
    (l₁ ++ l₂).getD n d = l₁.getD n d
  | [], _, n, _, h => absurd h (Nat.not_lt_zero n)
  | _ :: _, _, 0, _, _ => rfl
  | _ :: t, l₂, n + 1, d, h => getD_append_left t l₂ n d (Nat.lt_of_succ_lt_succ h)

theorem getD_append_self_length : ∀ (l : List γ) (a d : γ),
    (l ++ [a]).getD l.length d = a
  | [], _, _ => rfl
  | _ :: t, a, d => getD_append_self_length t a d

end ListLemmas

section FrameLemmas

theorem length_getCol (df : DataFrame α) (c : String) :
    (df.getCol c).length = df.nrows := by
  simp [DataFrame.getCol, DataFrame.nrows]

theorem nrows_setCol (df : DataFrame α) (c : String) (xs : List α)
    (h : xs.length = df.nrows) : (df.setCol c xs).nrows = df.nrows := by
  have h' : df.rows.length = xs.length := by simpa [DataFrame.nrows] using h.symm
  unfold DataFrame.setCol
  split <;> simp [DataFrame.nrows, List.length_zip, h']

theorem Wf_setCol (df : DataFrame α) (c : String) (xs : List α)
    (hwf : df.Wf) : (df.setCol c xs).Wf := by
  unfold DataFrame.setCol
  split
  · intro r hr
    simp only [List.mem_map] at hr
    obtain ⟨p, hp, rfl⟩ := hr
    rcases List.of_mem_zip hp with ⟨h₁, -⟩
    simp [hwf p.1 h₁]
  · intro r hr
    simp only [List.mem_map] at hr
    obtain ⟨p, hp, rfl⟩ := hr
    rcases List.of_mem_zip hp with ⟨h₁, -⟩
    simp [hwf p.1 h₁]

theorem names_setCol_of_mem (df : DataFrame α) (c : String) (xs : List α)
    (h : c ∈ df.names) : (df.setCol c xs).names = df.names := by
  simp [DataFrame.setCol, h]

theorem map_zip_set_getD : ∀ (rs : List (List α)) (xs : List α) (i : Nat) (d : α),
    (∀ r ∈ rs, i < r.length) → rs.length = xs.length →
    (rs.zip xs).map (fun p => (p.1.set i p.2).getD i d) = xs
  | [], [], _, _, _, _ => rfl
  | r :: rs, x :: xs, i, d, hb, hl => by
      simp only [List.zip_cons_cons, List.map_cons, List.cons.injEq]
      exact ⟨getD_set_self r i x d (hb r (List.mem_cons_self r rs)),
        map_zip_set_getD rs xs i d (fun r' hr' => hb r' (List.mem_cons_of_mem r hr'))
          (by simpa using hl)⟩
  | [], _ :: _, _, _, _, hl => by simp at hl
  | _ :: _, [], _, _, _, hl => by simp at hl

theorem map_zip_append_getD : ∀ (rs : List (List α)) (xs : List α) (n : Nat) (d : α),
    (∀ r ∈ rs, r.length = n) → rs.length = xs.length →
    (rs.zip xs).map (fun p => (p.1 ++ [p.2]).getD n d) = xs
  | [], [], _, _, _, _ => rfl
  | r :: rs, x :: xs, n, d, hb, hl => by
      simp only [List.zip_cons_cons, List.map_cons, List.cons.injEq]
      refine ⟨?_, map_zip_append_getD rs xs n d
        (fun r' hr' => hb r' (List.mem_cons_of_mem r hr')) (by simpa using hl)⟩
      rw [← hb r (List.mem_cons_self r rs)]
      exact getD_append_self_length r x d
  | [], _ :: _, _, _, _, hl => by simp at hl
  | _ :: _, [], _, _, _, hl => by simp at hl

theorem map_zip_append_getD_lt : ∀ (rs : List (List α)) (xs : List α) (j : Nat) (d : α),
    (∀ r ∈ rs, j < r.length) → rs.length = xs.length →
    (rs.zip xs).map (fun p => (p.1 ++ [p.2]).getD j d) = rs.map (fun r => r.getD j d)
  | [], [], _, _, _, _ => rfl
  | r :: rs, x :: xs, j, d, hb, hl => by
      simp only [List.zip_cons_cons, List.map_cons, List.cons.injEq]
      exact ⟨getD_append_left r [x] j d (hb r (List.mem_cons_self r rs)),
        map_zip_append_getD_lt rs xs j d
          (fun r' hr' => hb r' (List.mem_cons_of_mem r hr')) (by simpa using hl)⟩
  | [], _ :: _, _, _, _, hl => by simp at hl
  | _ :: _, [], _, _, _, hl => by simp at hl

theorem getCol_setCol_self (df : DataFrame α) (c : String) (xs : List α)
    (hwf : df.Wf) (hlen : xs.length = df.nrows) :
    (df.setCol c xs).getCol c = xs := by
  unfold DataFrame.setCol
  by_cases hc : c ∈ df.names
  · simp only [if_pos hc, DataFrame.getCol, List.map_map]
    have hi : pindexOf c df.names < df.names.length := by
      simpa [pindexOf] using List.indexOf_lt_length.2 hc
    exact map_zip_set_getD df.rows xs (pindexOf c df.names) default
      (fun r hr => (hwf r hr).symm ▸ hi) (hlen.symm)
  · simp only [if_neg hc, DataFrame.getCol, List.map_map]
    have hidx : pindexOf c (df.names ++ [c]) = df.names.length := by
      simp [pindexOf, List.indexOf_append_of_not_mem hc]
    rw [hidx]
    exact map_zip_append_getD df.rows xs df.names.length default
      (fun r hr => hwf r hr) (hlen.symm)

theorem getCol_setCol_ne (df : DataFrame α) (c c' : String) (xs : List α)
    (hwf : df.Wf) (hlen : xs.length = df.nrows) (hc' : c' ∈ df.names) (hne : c' ≠ c) :
    (df.setCol c xs).getCol c' = df.getCol c' := by
  unfold DataFrame.setCol
  by_cases hc : c ∈ df.names
  · simp only [if_pos hc, DataFrame.getCol, List.map_map]
    have hij : pindexOf c df.names ≠ pindexOf c' df.names := by
      intro e
      exact hne (((List.indexOf_inj hc hc').1 (by simpa [pindexOf] using e)).symm)
    have hrw : ∀ p : List α × α,
        ((p.1.set (pindexOf c df.names) p.2).getD (pindexOf c' df.names) default)
          = p.1.getD (pindexOf c' df.names) default :=
      fun p => getD_set_ne p.1 _ _ p.2 default hij
    calc (df.rows.zip xs).map (fun p =>
            (p.1.set (pindexOf c df.names) p.2).getD (pindexOf c' df.names) default)
        = (df.rows.zip xs).map (fun p => p.1.getD (pindexOf c' df.names) default) := by
          exact List.map_congr_left (fun p _ => hrw p)
      _ = df.rows.map (fun r => r.getD (pindexOf c' df.names) default) :=
          map_zip_fst (fun r => r.getD (pindexOf c' df.names) default) df.rows xs hlen.symm
  · simp only [if_neg hc, DataFrame.getCol, List.map_map]
    have hidx : pindexOf c' (df.names ++ [c]) = pindexOf c' df.names := by
      simp [pindexOf, List.indexOf_append_of_mem hc']
    rw [hidx]
    have hi' : pindexOf c' df.names < df.names.length := by
      simpa [pindexOf] using List.indexOf_lt_length.2 hc'
    exact map_zip_append_getD_lt df.rows xs (pindexOf c' df.names) default
      (fun r hr => (hwf r hr).symm ▸ hi') hlen.symm

end FrameLemmas

section InsertLemmas

theorem take_succ_insertIdx : ∀ (l : List α) (i : Nat) (a : α), i ≤ l.length →
    (l.insertIdx i a).take (i + 1) = l.take i ++ [a]
  | _, 0, _, _ => by simp
  | [], i + 1, _, h => by simp at h
  | x :: t, i + 1, a, h => by
      simp only [List.insertIdx_succ_cons, List.take_succ_cons, List.cons_append,
        List.cons.injEq, true_and]
      exact take_succ_insertIdx t i a (Nat.le_of_succ_le_succ h)

theorem drop_succ_insertIdx : ∀ (l : List α) (i : Nat) (a : α), i ≤ l.length →
    (l.insertIdx i a).drop (i + 1) = l.drop i
  | _, 0, _, _ => by simp
  | [], i + 1, _, h => by simp at h
  | x :: t, i + 1, a, h => by
      simp only [List.insertIdx_succ_cons, List.drop_succ_cons]
      exact drop_succ_insertIdx t i a (Nat.le_of_succ_le_succ h)

theorem insertColsFrom_eq [LinearOrder α] :
    ∀ (kvs : List (String × α)) (i : Nat) (d : DataFrame α),
    i ≤ d.names.length → (∀ r ∈ d.rows, i ≤ r.length) →
    insertColsFrom i kvs d
      = ⟨d.names.take i ++ kvs.map Prod.fst ++ d.names.drop i,
         d.rows.map (fun r => r.take i ++ kvs.map Prod.snd ++ r.drop i)⟩
  | [], i, d, hn, hr => by
      cases d with
      | mk ns rs => simp [insertColsFrom, List.take_append_drop]
  | (c, v) :: rest, i, d, hn, hr => by
      rw [insertColsFrom,
        insertColsFrom_eq rest (i + 1) (d.insertConstCol i c v)
          (by simpa [DataFrame.insertConstCol, List.length_insertIdx _ _ hn]
            using Nat.succ_le_succ hn)
          (by
            intro r hrr
            simp only [DataFrame.insertConstCol, List.mem_map] at hrr
            obtain ⟨r₀, hr₀, rfl⟩ := hrr
            simpa [List.length_insertIdx _ _ (hr r₀ hr₀)]
              using Nat.succ_le_succ (hr r₀ hr₀))]
      simp only [DataFrame.insertConstCol, List.map_map, List.map_cons, DataFrame.mk.injEq]
      constructor
      · rw [take_succ_insertIdx d.names i c hn, drop_succ_insertIdx d.names i c hn]
        simp
      · apply List.map_congr_left
        intro r hrr
        simp only [Function.comp_apply]
        rw [take_succ_insertIdx r i v (hr r hrr), drop_succ_insertIdx r i v (hr r hrr)]
        simp

theorem insertColsFrom_zero [LinearOrder α] (kvs : List (String × α)) (d : DataFrame α) :
    insertColsFrom 0 kvs d
      = ⟨kvs.map Prod.fst ++ d.names, d.rows.map (fun r => kvs.map Prod.snd ++ r)⟩ := by
  rw [insertColsFrom_eq kvs 0 d (Nat.zero_le _) (fun r _ => Nat.zero_le _)]
  simp

end InsertLemmas

section KeyLemmas

variable [LinearOrder α]

theorem sortedKeys_sorted (df : DataFrame α) (gs : List String) :
    (sortedKeys df gs).Sorted (· ≤ ·) :=
  List.sorted_insertionSort _ _

theorem sortedKeys_perm_dedup (df : DataFrame α) (gs : List String) :
    List.Perm (sortedKeys df gs) ((df.rows.map (rowKey df.names gs)).dedup) :=
  List.perm_insertionSort _ _

theorem sortedKeys_nodup (df : DataFrame α) (gs : List String) :
    (sortedKeys df gs).Nodup :=
  (sortedKeys_perm_dedup df gs).nodup_iff.2 (List.nodup_dedup _)

theorem mem_sortedKeys {df : DataFrame α} {gs : List String} {k : List α} :
    k ∈ sortedKeys df gs ↔ k ∈ df.rows.map (rowKey df.names gs) := by
  rw [(sortedKeys_perm_dedup df gs).mem_iff, List.mem_dedup]

theorem sortedKeys_length (df : DataFrame α) (gs : List String) :
    (sortedKeys df gs).length = ((df.rows.map (rowKey df.names gs)).dedup).length :=
  (sortedKeys_perm_dedup df gs).length_eq

theorem sortedKeys_sorted_lt (df : DataFrame α) (gs : List String) :
    (sortedKeys df gs).Sorted (· < ·) :=
  (sortedKeys_sorted df gs).lt_of_le (sortedKeys_nodup df gs)

theorem sortedKeys_row_perm (df : DataFrame α) (gs : List String) (rows₂ : List (List α))
    (hp : List.Perm df.rows rows₂) :
    sortedKeys (⟨df.names, rows₂⟩ : DataFrame α) gs = sortedKeys df gs := by
  refine List.eq_of_perm_of_sorted ?_ (sortedKeys_sorted _ _) (sortedKeys_sorted _ _)
  exact (List.perm_insertionSort _ _).trans
    (((hp.symm.map _).dedup).trans (List.perm_insertionSort _ _).symm)

theorem sorted_nodup_pindexOf_lt {β : Type} [LinearOrder β] [DecidableEq β]
    {l : List β} (hs : l.Sorted (· ≤ ·)) (hn : l.Nodup) {a b : β}
    (ha : a ∈ l) (hb : b ∈ l) : a < b ↔ pindexOf a l < pindexOf b l := by
  unfold pindexOf
  have hia : List.indexOf a l < l.length := List.indexOf_lt_length.2 ha
  have hib : List.indexOf b l < l.length := List.indexOf_lt_length.2 hb
  have hga := List.getElem_indexOf hia
  have hgb := List.getElem_indexOf hib
  have hpair := List.pairwise_iff_getElem.1 hs
  constructor
  · intro hab
    rcases Nat.lt_trichotomy (List.indexOf a l) (List.indexOf b l) with h | h | h
    · exact h
    · exact absurd ((List.indexOf_inj ha hb).1 h) (ne_of_lt hab)
    · have := hpair _ _ hib hia h
      rw [hgb, hga] at this
      exact absurd hab (not_lt_of_le this)
  · intro h
    have hle : a ≤ b := by
      have := hpair _ _ hia hib h
      rwa [hga, hgb] at this
    refine lt_of_le_of_ne hle ?_
    intro e
    subst e
    exact absurd rfl (ne_of_lt h)

theorem partitionRows_key {df : DataFrame α} {gs : List String} {k : List α} :
    ∀ r ∈ (partitionRows df gs k).rows, rowKey df.names gs r = k := by
  intro r hr
  simp only [partitionRows, List.mem_filter, decide_eq_true_eq] at hr
  exact hr.2

theorem partitionRows_ne_nil {df : DataFrame α} {gs : List String} {k : List α}
    (hk : k ∈ sortedKeys df gs) : (partitionRows df gs k).rows ≠ [] := by
  rcases List.mem_map.1 (mem_sortedKeys.1 hk) with ⟨r, hr, hkey⟩
  exact List.ne_nil_of_mem
    (List.mem_filter.2 ⟨hr, by simpa using hkey⟩)

theorem getD_zero_map (f : List α → α) :
    ∀ (l : List (List α)) (h : l ≠ []) (d : α), (l.map f).getD 0 d = f (l.head h)
  | [], h, _ => absurd rfl h
  | _ :: _, _, _ => rfl

end KeyLemmas

section HelperLemmas

theorem mapDf_df (f : DataFrame α → DataFrame α) (pf : PFrame α) :
    (pf.mapDf f).df = f pf.df := by
  cases pf <;> rfl

theorem eval_texts (texts : List (String × (DataFrame α → List α))) (df : DataFrame α) :
    _evaluate_expressions (texts.map (fun p => (p.1, Expr.text p.2))) df
      = .ok (texts.map (fun p => (p.1, p.2 df))) := by
  induction texts with
  | nil => rfl
  | cons hd tl ih => simp [_evaluate_expressions, ih]

end HelperLemmas

section Claims

/-- C1: for every grouped dataset and every select invocation with
`drop=true`, the group-key columns are OR-ed into the inclusion vector
together with the name/startswith/endswith/contains/matches predicates
before the vector is inverted, so a group-key column that matches no other
predicate (`select_cond` with no groups is false at it) is removed from the
result — group-key membership never overrides an active drop. -/
theorem C1_select_drop_removes_group_key (args : List String) (kw : SelectKw)
    (df : DataFrame α) (groups : List String) (g : String)
    (hdrop : kw.drop = true) (hg : g ∈ groups)
    (hother : select_cond args kw [] g = false) :
    g ∉ (select args kw (.grouped df groups)).names := by
  have hc6 : select_cond args kw groups g = true := by
    simp [select_cond, List.ne_nil_of_mem hg, hg]
  intro hmem
  simp only [select, _get_groups, List.mem_filter] at hmem
  rw [hdrop] at hmem
  simp [hc6] at hmem

/-- Witness for C1: the grouped frame `dfC1` with key column "x", under
`select(startswith="a", drop=True)`, loses "x" although "x" matches no other
predicate. -/
theorem C1_witness :
    kwC1.drop = true ∧ ("x" ∈ (["x"] : List String))
      ∧ select_cond [] kwC1 [] "x" = false
      ∧ "x" ∉ (select [] kwC1 (.grouped dfC1 ["x"])).names :=
  ⟨rfl, by decide, by decide,
    C1_select_drop_removes_group_key [] kwC1 dfC1 ["x"] "x" rfl (by decide) (by decide)⟩

/-- C2: every mutate expression is evaluated against the original,
pre-mutation columns of the input — a whole list of textual expressions
evaluates to exactly their values on the input frame, no sibling assignment
visible — and in particular `mutate(D, x=D.y, y=D.x)` swaps the two columns
rather than cascading. -/
theorem C2_mutate_noncascading (policy : Bool) (pf : PFrame α) (a b : String)
    (texts : List (String × (DataFrame α → List α)))
    (hwf : pf.df.Wf) (ha : a ∈ pf.df.names) (hb : b ∈ pf.df.names) (hab : a ≠ b) :
    (_evaluate_expressions (texts.map (fun p => (p.1, Expr.text p.2))) pf.df
        = .ok (texts.map (fun p => (p.1, p.2 pf.df))))
    ∧ ∃ res : PFrame α,
        mutate policy [(a, Expr.text (fun d => d.getCol b)),
                       (b, Expr.text (fun d => d.getCol a))] pf
          = .ok (res, if policy then res else pf)
        ∧ res.df.getCol a = pf.df.getCol b
        ∧ res.df.getCol b = pf.df.getCol a := by
  have hlb : (pf.df.getCol b).length = pf.df.nrows := length_getCol pf.df b
  have hla : (pf.df.getCol a).length = pf.df.nrows := length_getCol pf.df a
  have hwf1 : (pf.df.setCol a (pf.df.getCol b)).Wf := Wf_setCol pf.df a _ hwf
  have hnr1 : (pf.df.setCol a (pf.df.getCol b)).nrows = pf.df.nrows :=
    nrows_setCol pf.df a _ hlb
  refine ⟨eval_texts texts pf.df,
    ⟨pf.mapDf (fun d => (d.setCol a (pf.df.getCol b)).setCol b (pf.df.getCol a)),
      ?_, ?_, ?_⟩⟩
  · cases policy <;> rfl
  · rw [mapDf_df]
    rw [getCol_setCol_ne (pf.df.setCol a (pf.df.getCol b)) b a (pf.df.getCol a) hwf1
      (by rw [hla, hnr1]) (by rw [names_setCol_of_mem pf.df a _ ha]; exact ha) hab]
    exact getCol_setCol_self pf.df a (pf.df.getCol b) hwf hlb
  · rw [mapDf_df]
    exact getCol_setCol_self (pf.df.setCol a (pf.df.getCol b)) b (pf.df.getCol a) hwf1
      (by rw [hla, hnr1])

/-- Witness for C2 on `dfXY`: mutating x to the old y and y to the old x
swaps the two columns. -/
theorem C2_witness :
    dfXY.Wf ∧ ("x" ∈ dfXY.names) ∧ ("y" ∈ dfXY.names) ∧ "x" ≠ "y"
    ∧ (∃ res : PFrame Int,
        mutate false [("x", Expr.text (fun d => d.getCol "y")),
                      ("y", Expr.text (fun d => d.getCol "x"))] (.plain dfXY)
          = .ok (res, if false then res else .plain dfXY)
        ∧ res.df.getCol "x" = (PFrame.plain dfXY).df.getCol "y"
        ∧ res.df.getCol "y" = (PFrame.plain dfXY).df.getCol "x") :=
  ⟨by decide, by decide, by decide, by decide,
    (C2_mutate_noncascading false (.plain dfXY) "x" "y" []
      (by decide) (by decide) (by decide) (by decide)).2⟩

/-- C5 counterexample: on the two-row frame `dfAB`, a scalar expression is
not broadcast to the full column; `_evaluate_expressions` raises TypeError
(the `hasattr(expr, '__len__')` test fails and control falls to the
TypeError branch). -/
theorem C5_counterexample :
    _evaluate_expressions [("z", Expr.scalar (5 : Int))] dfAB = .error .typeError
    ∧ _evaluate_expressions [("z", Expr.scalar (5 : Int))] dfAB
        ≠ .ok [("z", [5, 5])] :=
  ⟨rfl, fun h => nomatch h⟩

/-- C5 (amended): a textual expression is evaluated and used; a sequence
whose length equals the row count is used verbatim; a sequence of any other
length fails with ValueError; any other non-text value — a scalar included,
there is no broadcast — fails with TypeError. -/
theorem C5_expression_materialisation (df : DataFrame α) (c : String)
    (f : DataFrame α → List α) (xs : List α) (v : α)
    (rest : List (String × Expr α)) :
    (_evaluate_expressions [(c, Expr.text f)] df = .ok [(c, f df)])
    ∧ (df.nrows = xs.length →
        _evaluate_expressions [(c, Expr.seq xs)] df = .ok [(c, xs)])
    ∧ (df.nrows ≠ xs.length →
        _evaluate_expressions ((c, Expr.seq xs) :: rest) df = .error .valueError)
    ∧ _evaluate_expressions ((c, Expr.scalar v) :: rest) df = .error .typeError := by
  refine ⟨rfl, ?_, ?_, rfl⟩
  · intro h
    simp [_evaluate_expressions, h]
  · intro h
    simp [_evaluate_expressions, h]

/-- Witness for C5 on `dfAB` (two rows): a length-2 sequence is used
verbatim, a length-1 sequence raises ValueError. -/
theorem C5_witness :
    _evaluate_expressions [("z", Expr.seq ([7, 8] : List Int))] dfAB
        = .ok [("z", [7, 8])]
    ∧ _evaluate_expressions [("z", Expr.seq ([7] : List Int))] dfAB
        = .error .valueError :=
  ⟨(C5_expression_materialisation dfAB "z" (fun d => d.getCol "a") [7, 8] 0 []).2.1
      (by decide),
   (C5_expression_materialisation dfAB "z" (fun d => d.getCol "a") [7] 0 []).2.2.1
      (by decide)⟩

/-- C6: the registry's `first` and `last` reducers on an empty partition, and
`nth` with an out-of-range index, do not return the NaN sentinel promised by
`_nth`'s docstring — `arr.iloc[n]` raises IndexError, which the
`except KeyError` handler does not catch, so the error propagates. -/
theorem C6_nth_raises_instead_of_nan :
    _first ([] : List Int) = .error .indexError
    ∧ _last ([] : List Int) = .error .indexError
    ∧ _nth ([1, 2, 3] : List Int) 5 = .error .indexError
    ∧ _nth ([1, 2, 3] : List Int) (-4) = .error .indexError :=
  ⟨rfl, rfl, rfl, rfl⟩

/-- C7: `group_indices` on an already-grouped input carrying an explicit key
list does warn, but the labels are computed from the explicit list, not from
the group tag's keys: on `dfC7` (tag "x", explicit "y") the result follows
column y, and grouping by the tag "x" would have produced different
labels. -/
theorem C7_warns_but_uses_explicit_groups :
    group_indices ["y"] (.grouped dfC7 ["x"]) = .ok (true, [0, 1, 1])
    ∧ group_labels dfC7 ["x"] = [0, 0, 1]
    ∧ group_labels dfC7 ["y"] = [0, 1, 1] :=
  ⟨rfl, rfl, rfl⟩

/-- C9: with the `modify_input_data` policy disabled, the mutate and rename
handlers leave the caller's dataset unchanged — the state component of the
result pair is the untouched input frame. -/
theorem C9_policy_disabled_preserves_input (pairs : List (String × Expr α))
    (lookup : List (String × String)) (pf : PFrame α) (pr : PFrame α × PFrame α)
    (hm : mutate false pairs pf = .ok pr) :
    pr.2 = pf ∧ (rename false lookup pf).2 = pf := by
  refine ⟨?_, rfl⟩
  unfold mutate at hm
  cases he : _evaluate_expressions pairs pf.df with
  | error e =>
      rw [he] at hm
      exact absurd hm (by simp)
  | ok nd =>
      rw [he] at hm
      simp only [Bool.false_eq_true, if_false, Except.ok.injEq] at hm
      rw [← hm]

/-- Witness for C9: an empty mutate and a rename on `dfXY` leave the input
frame as it was. -/
theorem C9_witness :
    ((PFrame.plain dfXY, PFrame.plain dfXY) : PFrame Int × PFrame Int).2 = .plain dfXY
    ∧ (rename false [("x", "w")] (.plain dfXY)).2 = .plain dfXY :=
  C9_policy_disabled_preserves_input [] [("x", "w")] (.plain dfXY)
    (.plain dfXY, .plain dfXY) rfl

end Claims

section OrderedClaims

variable [LinearOrder α]

/-- C10: arrange evaluates and uses at most the first 100 ordering
expressions — the synthetic-name generator is `range(100)`, `zip` truncates
at it, and any further expressions are silently ignored, never rejected. -/
theorem C10_arrange_first_100 (exprs : List (DataFrame α → List α)) (df : DataFrame α) :
    arrange exprs df = arrange (exprs.take 100) df := by
  have h1 : name_gen.length = 100 := by simp [name_gen]
  have hzip : name_gen.zip exprs = name_gen.zip (exprs.take 100) := by
    rw [zip_take_length_right name_gen exprs,
      zip_take_length_right name_gen (exprs.take 100), h1, List.take_take, Nat.min_self]
  have hkc : key_cols exprs df = key_cols (exprs.take 100) df := by
    unfold key_cols
    rw [hzip]
  unfold arrange arrange_tagged arrange_keys
  rw [hkc]

/-- C8: arrange returns a permutation of the input rows, sorted ascending by
the synthetic key tuples (lexicographic = left-to-right column priority),
with the engine's stable sort: among rows whose key tuples are all equal the
original relative order survives (the filtered runs coincide); with an empty
expression list arrange is a no-op. -/
theorem C8_arrange_stable_sort (exprs : List (DataFrame α → List α)) (df : DataFrame α)
    (hne : exprs ≠ []) :
    List.Perm (arrange exprs df).rows df.rows
    ∧ (arrange exprs df).names = df.names
    ∧ (arrange exprs df).rows
        = (List.insertionSort keyLe (arrange_tagged exprs df)).map Prod.snd
    ∧ (List.insertionSort keyLe (arrange_tagged exprs df)).Sorted keyLe
    ∧ (∀ k : List α,
        (List.insertionSort keyLe (arrange_tagged exprs df)).filter
            (fun p => decide (p.1 = k))
          = (arrange_tagged exprs df).filter (fun p => decide (p.1 = k)))
    ∧ arrange ([] : List (DataFrame α → List α)) df = df := by
  have hlen : (key_cols exprs df).length = min 100 exprs.length := by
    simp [key_cols, name_gen]
  have hpos : 0 < (key_cols exprs df).length := by
    rw [hlen]
    have := List.length_pos.2 hne
    omega
  have hkc : (key_cols exprs df).isEmpty = false := by
    cases hkcs : key_cols exprs df with
    | nil => rw [hkcs] at hpos; simp at hpos
    | cons x t => rfl
  have harr : arrange exprs df
      = ⟨df.names, (List.insertionSort keyLe (arrange_tagged exprs df)).map Prod.snd⟩ := by
    unfold arrange
    rw [hkc]
    rfl
  have hklen : (arrange_keys exprs df).length = df.rows.length := by
    simp [arrange_keys, DataFrame.nrows]
  have hmapsnd : (arrange_tagged exprs df).map Prod.snd = df.rows :=
    zip_map_snd_eq _ _ hklen
  refine ⟨?_, by rw [harr], by rw [harr], List.sorted_insertionSort keyLe _, ?_, ?_⟩
  · rw [harr]
    have hp := (List.perm_insertionSort keyLe (arrange_tagged exprs df)).map Prod.snd
    rwa [hmapsnd] at hp
  · intro k
    have hpair : ((arrange_tagged exprs df).filter
        (fun p => decide (p.1 = k))).Pairwise keyLe := by
      apply List.pairwise_of_forall_mem_list
      intro x hx y hy
      have hx' : x.1 = k := by simpa using (List.mem_filter.1 hx).2
      have hy' : y.1 = k := by simpa using (List.mem_filter.1 hy).2
      show x.1 ≤ y.1
      rw [hx', hy']
    have hsub : List.Sublist
        ((arrange_tagged exprs df).filter (fun p => decide (p.1 = k)))
        (List.insertionSort keyLe (arrange_tagged exprs df)) :=
      List.sublist_insertionSort hpair (List.filter_sublist _)
    have hself : ((arrange_tagged exprs df).filter
          (fun p => decide (p.1 = k))).filter (fun p => decide (p.1 = k))
        = (arrange_tagged exprs df).filter (fun p => decide (p.1 = k)) :=
      List.filter_eq_self.2 (fun a ha => (List.mem_filter.1 ha).2)
    have hsubf := hsub.filter (fun p => decide (p.1 = k))
    rw [hself] at hsubf
    have hcnt : ((List.insertionSort keyLe (arrange_tagged exprs df)).filter
          (fun p => decide (p.1 = k))).length
        = ((arrange_tagged exprs df).filter (fun p => decide (p.1 = k))).length := by
      rw [← List.countP_eq_length_filter, ← List.countP_eq_length_filter]
      exact (List.perm_insertionSort keyLe (arrange_tagged exprs df)).countP_eq _
    exact (hsubf.eq_of_length hcnt.symm).symm
  · simp [arrange, key_cols]

/-- Witness for C8: arranging `dfXY` by its x column permutes its rows. -/
theorem C8_witness :
    List.Perm (arrange exC8 dfXY).rows dfXY.rows :=
  (C8_arrange_stable_sort exC8 dfXY (by simp [exC8])).1

/-- C4: group-index assignment on a grouped frame (no redundant explicit
keys) yields one integer label per row, the label being the rank of the
row's key tuple among the sorted distinct key tuples: two rows share a label
iff their key tuples are equal, the labels are exactly 0..k-1 for k distinct
tuples, and label order follows ascending lexicographic tuple order; on the
concrete key column 1,1,2,2,3,3 the labels are 0,0,1,1,2,2. -/
theorem C4_group_indices_labels (df : DataFrame α) (gs : List String) :
    ∃ lbls : List Int,
      group_indices [] (.grouped df gs) = .ok (false, lbls)
      ∧ lbls = df.rows.map (fun r =>
          ((pindexOf (rowKey df.names gs r) (sortedKeys df gs) : Nat) : Int))
      ∧ (∀ r₁ ∈ df.rows, ∀ r₂ ∈ df.rows,
          (pindexOf (rowKey df.names gs r₁) (sortedKeys df gs)
            = pindexOf (rowKey df.names gs r₂) (sortedKeys df gs))
          ↔ rowKey df.names gs r₁ = rowKey df.names gs r₂)
      ∧ (∀ z ∈ lbls, 0 ≤ z
          ∧ z < ((df.rows.map (rowKey df.names gs)).dedup).length)
      ∧ (∀ m : Nat, m < ((df.rows.map (rowKey df.names gs)).dedup).length →
          ((m : Nat) : Int) ∈ lbls)
      ∧ (∀ r₁ ∈ df.rows, ∀ r₂ ∈ df.rows,
          rowKey df.names gs r₁ < rowKey df.names gs r₂
          ↔ pindexOf (rowKey df.names gs r₁) (sortedKeys df gs)
              < pindexOf (rowKey df.names gs r₂) (sortedKeys df gs))
      ∧ group_indices [] (.grouped dfC4 ["k"]) = .ok (false, [0, 0, 1, 1, 2, 2]) := by
  have hksmem : ∀ r ∈ df.rows, rowKey df.names gs r ∈ sortedKeys df gs :=
    fun r hr => mem_sortedKeys.2 (List.mem_map_of_mem _ hr)
  refine ⟨group_labels df gs, rfl, rfl, ?_, ?_, ?_, ?_, rfl⟩
  · intro r₁ h₁ r₂ h₂
    exact List.indexOf_inj (hksmem r₁ h₁) (hksmem r₂ h₂)
  · intro z hz
    simp only [group_labels, List.mem_map] at hz
    obtain ⟨r, hr, rfl⟩ := hz
    refine ⟨Int.ofNat_nonneg _, ?_⟩
    have hlt : pindexOf (rowKey df.names gs r) (sortedKeys df gs)
        < (sortedKeys df gs).length :=
      List.indexOf_lt_length.2 (hksmem r hr)
    rw [sortedKeys_length] at hlt
    exact_mod_cast hlt
  · intro m hm
    have hm' : m < (sortedKeys df gs).length := by
      rw [sortedKeys_length]
      exact hm
    have hmem := List.getElem_mem hm'
    rcases List.mem_map.1 (mem_sortedKeys.1 hmem) with ⟨r, hr, hkr⟩
    have hidx : pindexOf (rowKey df.names gs r) (sortedKeys df gs) = m := by
      rw [hkr]
      exact List.indexOf_getElem (sortedKeys_nodup df gs) m hm'
    simp only [group_labels, List.mem_map]
    exact ⟨r, hr, by rw [hidx]⟩
  · intro r₁ h₁ r₂ h₂
    exact sorted_nodup_pindexOf_lt (sortedKeys_sorted df gs) (sortedKeys_nodup df gs)
      (hksmem r₁ h₁) (hksmem r₂ h₂)

/-- C3: grouped summarize concatenates the per-partition apply results over
the distinct key tuples taken in strictly ascending lexicographic order; the
visiting order depends only on the multiset of rows, never on their
arrangement; the partition keys are exactly those occurring in the data; and
every partial result carries the partition's constant key values as its
leading columns (names prefixed by the group keys, every row prefixed by the
key tuple).  The combined rows are positions 0..n-1 of the flattened list,
i.e. contiguously reindexed. -/
theorem C3_summarize_sorted_combine (exprs : List (String × SumExpr α))
    (df : DataFrame α) (gs : List String) :
    (summarize exprs (.grouped df gs)).rows
      = ((sortedKeys df gs).map (fun k =>
          (_eval_summarize_expressions exprs
            (.grouped (partitionRows df gs k) gs)).rows)).flatten
    ∧ (sortedKeys df gs).Sorted (· < ·)
    ∧ (∀ rows₂ : List (List α), List.Perm df.rows rows₂ →
        sortedKeys (⟨df.names, rows₂⟩ : DataFrame α) gs = sortedKeys df gs)
    ∧ (∀ k : List α, k ∈ sortedKeys df gs ↔ k ∈ df.rows.map (rowKey df.names gs))
    ∧ (∀ k ∈ sortedKeys df gs,
        (_eval_summarize_expressions exprs (.grouped (partitionRows df gs k) gs)).names
          = gs ++ exprs.map Prod.fst
        ∧ ∀ r ∈ (_eval_summarize_expressions exprs
            (.grouped (partitionRows df gs k) gs)).rows,
            r.take gs.length = k) := by
  refine ⟨by simp [summarize, List.map_map, Function.comp_def], sortedKeys_sorted_lt df gs,
    fun rows₂ hp => sortedKeys_row_perm df gs rows₂ hp,
    fun k => mem_sortedKeys, ?_⟩
  intro k hk
  have hne : (partitionRows df gs k).rows ≠ [] := partitionRows_ne_nil hk
  have hkey : rowKey df.names gs ((partitionRows df gs k).rows.head hne) = k :=
    partitionRows_key _ (List.head_mem hne)
  have hvals : (gs.map (fun c =>
      (c, ((partitionRows df gs k).getCol c).getD 0 default))).map Prod.snd = k := by
    rw [List.map_map]
    have hpt : ∀ c : String,
        ((partitionRows df gs k).getCol c).getD 0 default
          = ((partitionRows df gs k).rows.head hne).getD (pindexOf c df.names) default := by
      intro c
      unfold DataFrame.getCol
      exact getD_zero_map _ _ hne default
    calc gs.map (Prod.snd ∘ fun c =>
            (c, ((partitionRows df gs k).getCol c).getD 0 default))
        = gs.map (fun c =>
            ((partitionRows df gs k).rows.head hne).getD (pindexOf c df.names) default) :=
          List.map_congr_left (fun c _ => hpt c)
      _ = k := hkey
  have heval : _eval_summarize_expressions exprs (.grouped (partitionRows df gs k) gs)
      = ⟨(gs.map (fun c => (c, ((partitionRows df gs k).getCol c).getD 0 default))).map
            Prod.fst
          ++ (fromCols (exprs.map (fun p =>
              (p.1, match p.2 with
                | .text f => f (partitionRows df gs k)
                | .lit xs => xs)))).names,
         (fromCols (exprs.map (fun p =>
              (p.1, match p.2 with
                | .text f => f (partitionRows df gs k)
                | .lit xs => xs)))).rows.map (fun r =>
            (gs.map (fun c =>
              (c, ((partitionRows df gs k).getCol c).getD 0 default))).map Prod.snd ++ r)⟩ := by
    unfold _eval_summarize_expressions
    simp only [PFrame.df]
    exact insertColsFrom_zero _ _
  constructor
  · rw [heval]
    simp [fromCols, List.map_map, Function.comp_def]
  · intro r hr
    rw [heval] at hr
    simp only [List.mem_map] at hr
    obtain ⟨r₀, hr₀, rfl⟩ := hr
    rw [hvals]
    have hklen : k.length = gs.length := by
      rw [← hkey]
      simp [rowKey]
    exact List.take_left' hklen

end OrderedClaims

end Plydata
